import Mathlib

/-!
Shallow embedding of megatron/checkpointing.py from the gpt-neo-x
repository.  Python strings are modelled as lists of characters,
dict-shaped records as structures with optional fields, tensors as lists
of rationals, and fallible code as Except values.
-/

/-- Truthiness-based Python disjunction on optional integers, as in the
expression d.get(k1) or d.get(k2): a stored 0 counts as false and falls
through to the second operand. -/
def pyOr (a b : Option Int) : Option Int :=
  match a with
  | some n => if n ≠ 0 then some n else b
  | none => b

/-- Character for a single decimal digit d (d below 10). -/
def digitChar (d : Nat) : Char :=
  Char.ofNat (48 + d)

/-- Fuel-driven decimal rendering of a natural number, most significant
digit first; fuel larger than the number suffices. -/
def decCharsF : Nat → Nat → List Char
  | 0, _ => []
  | f + 1, n =>
    if n < 10 then [digitChar n]
    else decCharsF f (n / 10) ++ [digitChar (n % 10)]

/-- Decimal rendering of a natural number, as Python str of a
nonnegative int. -/
def decChars (n : Nat) : List Char :=
  decCharsF (n + 1) n

/-- Python str of an int (possibly negative). -/
def intStr (n : Int) : String :=
  if n < 0 then String.mk ('-' :: decChars n.natAbs) else String.mk (decChars n.natAbs)

/-- Left padding with zeros up to width w, as the Python format
specifier 0wd applied to a digit string. -/
def zfill (w : Nat) (l : List Char) : List Char :=
  List.replicate (w - l.length) '0' ++ l

/-- Minimum-width zero-padded decimal of n, the Python format 0wd. -/
def pyFormat0 (w : Nat) (n : Nat) : List Char :=
  zfill w (decChars n)

/-- Python os.path.join on two path components (posix semantics): an
absolute second component discards the first, an empty or slash-ending
first component is prepended as is, otherwise a slash separator is
inserted. -/
def pyJoin (a b : List Char) : List Char :=
  if b.head? = some '/' then b
  else if a = [] then b
  else if a.getLast? = some '/' then a ++ b
  else a ++ '/' :: b

/-- The part contributed by the first component in a pyJoin whose second
component does not start with a slash. -/
def joinPre (a : List Char) : List Char :=
  if a = [] then [] else if a.getLast? = some '/' then a else a ++ ['/']

/-- The iteration directory name iter_ followed by the iteration
zero-padded to 7 digits (line 115). -/
def iterDirChars (iteration : Nat) : List Char :=
  "iter_".data ++ pyFormat0 7 iteration

/-- The rank directory name mp_rank_ followed by the rank zero-padded
to 2 digits (line 117). -/
def rankDirChars (mp_rank : Nat) : List Char :=
  "mp_rank_".data ++ pyFormat0 2 mp_rank

/-- get_checkpoint_name from checkpointing.py (lines 109-120): the
directory is the literal release when the release flag is set, otherwise
the zero-padded iteration directory; below it the zero-padded rank
directory and the fixed payload filename, joined by os.path.join.  The
model-parallel rank is passed explicitly (the mp_rank argument, or the
rank returned by mpu for the calling process). -/
def get_checkpoint_name (checkpoints_path : List Char) (iteration : Nat)
    (release : Bool) (mp_rank : Nat) : List Char :=
  let directory : List Char :=
    if release then "release".data else iterDirChars iteration
  pyJoin (pyJoin (pyJoin checkpoints_path directory)
    (rankDirChars mp_rank)) "model_optim_rng.pt".data

/-- Python values stored in the args dict of a checkpoint: the saved
architecture fields are ints and one tokenizer-type string. -/
inductive PyVal where
  | int : Int → PyVal
  | str : String → PyVal
deriving DecidableEq

/-- Python str of a stored argument value. -/
def pyStr : PyVal → String
  | .int n => intStr n
  | .str s => s

/-- The assertion message format of check_checkpoint_args (line 43). -/
def checkpointArgErrorMessage (name : String) (ckptVal curVal : PyVal) : String :=
  name ++ " value from checkpoint (" ++ pyStr ckptVal ++
    ") is not equal to the currently set argument value (" ++ pyStr curVal ++ ")."

/-- check_checkpoint_args from checkpointing.py (lines 36-44): walk the
stored args items and assert each equal to the attribute of the same
name on the current configuration, with the formatted message on the
first mismatch.  The getattr access is modelled by the function argOf
(the configurations in play carry every stored architecture field). -/
def check_checkpoint_args (argOf : String → PyVal) :
    List (String × PyVal) → Except String Unit
  | [] => .ok ()
  | (name, v) :: rest =>
    if v = argOf name then check_checkpoint_args argOf rest
    else .error (checkpointArgErrorMessage name v (argOf name))

/-- Default absolute tolerance of torch.isclose. -/
def torchAtol : ℚ := 1 / 100000000

/-- Default relative tolerance of torch.isclose. -/
def torchRtol : ℚ := 1 / 100000

/-- Elementwise equality of two same-shaped tensors followed by all(),
as in the expression (logits == checkpoint_logits).all().item(). -/
def tensorAllEq (a b : List ℚ) : Bool :=
  (a.zip b).all fun p => p.1 == p.2

/-- Elementwise torch.isclose with the default tolerances followed by
all(): the absolute difference is bounded by atol plus rtol times the
magnitude of the second tensor. -/
def tensorAllClose (a b : List ℚ) : Bool :=
  (a.zip b).all fun p => decide (|p.1 - p.2| ≤ torchAtol + torchRtol * |p.2|)

/-- Observable outcome of the comparison in check_forward_pass. -/
inductive ForwardCheckOutcome where
  | silent
  | warned
  | fatal
  | skipped
deriving DecidableEq

/-- Comparison policy of check_forward_pass (lines 92-101): a rank
without logits compares nothing; exact elementwise equality passes
silently; otherwise a warning is printed and torch.isclose is asserted,
so a close mismatch only warns and a non-close mismatch is a fatal
assertion. -/
def check_forward_pass (logits : Option (List ℚ)) (checkpoint_logits : List ℚ) :
    ForwardCheckOutcome :=
  match logits with
  | none => .skipped
  | some l =>
    if tensorAllEq l checkpoint_logits then .silent
    else if tensorAllClose l checkpoint_logits then .warned
    else .fatal

/-- Train/eval mode evolution of do_forward_pass (lines 46-90).  The
entry mode is model_training; the function switches to eval mode, runs
the forward pass (barriers, broadcast and the forward call abstracted
into the single flag forward_raises), and only on the normal path
switches back to train mode when the model was training.  The result is
the pair of the train flag at exit and whether the call completed
normally (false when the exception escaped before the restore). -/
def do_forward_pass_mode (model_training : Bool) (forward_raises : Bool) :
    Bool × Bool :=
  let model_was_in_train := model_training
  let trainingAfterEval := false
  if forward_raises then (trainingAfterEval, false)
  else (if model_was_in_train then true else trainingAfterEval, true)

/-- The checkpoint_validation payload stored by save_ds_checkpoint
(lines 162-167). -/
structure ValidationPayload where
  context_tokens : List Int
  logits : List ℚ
deriving DecidableEq

/-- The client-state record of a checkpoint, as consumed by
load_checkpoint: every key that load_checkpoint may look up is an
optional field. -/
structure StateDict where
  iteration : Option Int
  total_iters : Option Int
  args : Option (List (String × PyVal))
  checkpoint_validation : Option ValidationPayload
  random_rng_state : Option Nat
  np_rng_state : Option Nat
  torch_rng_state : Option Nat
  cuda_rng_state : Option Nat
  rng_tracker_states : Option Nat

/-- The slice of neox_args that load_checkpoint consults: behavioral
flags plus the getattr view used by check_checkpoint_args. -/
structure NeoxConfig where
  finetune : Bool
  no_load_rng : Bool
  checkpoint_validation_with_forward_pass : Bool
  argOf : String → PyVal

/-- Fatal conditions load_checkpoint can raise. -/
inductive LoadError where
  | missingIteration
  | argsMismatch : String → LoadError
  | forwardMismatch
  | rngMissing
deriving DecidableEq

/-- Result of a completed load: the resume iteration and whether the
RNG states were restored. -/
structure LoadOutcome where
  iteration : Int
  rngRestored : Bool
deriving DecidableEq

/-- Iteration resolution of load_checkpoint (lines 203-209): a finetune
run forces 0; otherwise the truthiness-or of the iteration field and the
legacy total_iters field, raising when that is None. -/
def resolveIteration (finetune : Bool) (sd : StateDict) : Except LoadError Int :=
  if finetune then .ok 0
  else
    match pyOr sd.iteration sd.total_iters with
    | some n => .ok n
    | none => .error .missingIteration

/-- Argument-compatibility step of load_checkpoint (lines 211-217):
when the record carries args they are checked, a mismatch becoming a
fatal error; when absent only a warning is printed. -/
def checkArgsStep (argOf : String → PyVal)
    (args : Option (List (String × PyVal))) : Except LoadError Unit :=
  match args with
  | some checkpoint_args =>
    match check_checkpoint_args argOf checkpoint_args with
    | .ok _ => .ok ()
    | .error m => .error (.argsMismatch m)
  | none => .ok ()

/-- Forward-pass re-validation step of load_checkpoint (lines 219-231):
run only when configured; an absent payload only warns; a fatal
comparison outcome becomes the assertion error.  newLogits is the
logits tensor recomputed by this rank (none on a non-final pipeline
stage). -/
def forwardStep (cfg : NeoxConfig) (sd : StateDict)
    (newLogits : Option (List ℚ)) : Except LoadError Unit :=
  if cfg.checkpoint_validation_with_forward_pass then
    match sd.checkpoint_validation with
    | some payload =>
      if check_forward_pass newLogits payload.logits = .fatal then
        .error .forwardMismatch
      else .ok ()
    | none => .ok ()
  else .ok ()

/-- RNG restoration step of load_checkpoint (lines 233-247): attempted
only when neither finetune nor no_load_rng is set; a missing key is the
fatal KeyError path (sys.exit); otherwise all five states are
restored. -/
def rngStep (cfg : NeoxConfig) (sd : StateDict) : Except LoadError Bool :=
  if !cfg.finetune && !cfg.no_load_rng then
    if sd.random_rng_state.isSome && sd.np_rng_state.isSome &&
        sd.torch_rng_state.isSome && sd.cuda_rng_state.isSome &&
        sd.rng_tracker_states.isSome then .ok true
    else .error .rngMissing
  else .ok false

/-- load_checkpoint from checkpointing.py (lines 187-253), deepspeed
path.  The engine call is modelled by the found argument: none when no
checkpoint was located (early return 0), some sd when a record was
retrieved.  The steps then run in source order: iteration resolution,
argument check, optional forward-pass re-validation, RNG restoration. -/
def load_checkpoint (cfg : NeoxConfig) (found : Option StateDict)
    (newLogits : Option (List ℚ)) : Except LoadError LoadOutcome :=
  match found with
  | none => .ok ⟨0, false⟩
  | some sd =>
    match resolveIteration cfg.finetune sd with
    | .error e => .error e
    | .ok iteration =>
      match checkArgsStep cfg.argOf sd.args with
      | .error e => .error e
      | .ok _ =>
        match forwardStep cfg sd newLogits with
        | .error e => .error e
        | .ok _ =>
          match rngStep cfg sd with
          | .error e => .error e
          | .ok rngRestored => .ok ⟨iteration, rngRestored⟩

/-- The eight architecture fields save_ds_checkpoint snapshots
(lines 143-152). -/
structure NeoxArchArgs where
  num_layers : Int
  hidden_size : Int
  num_attention_heads : Int
  max_position_embeddings : Int
  make_vocab_size_divisible_by : Int
  padded_vocab_size : Int
  tokenizer_type : String
  model_parallel_size : Int

/-- The args dict written by save_ds_checkpoint (lines 143-152), in
insertion order. -/
def savedArchArgs (a : NeoxArchArgs) : List (String × PyVal) :=
  [("num_layers", .int a.num_layers),
   ("hidden_size", .int a.hidden_size),
   ("num_attention_heads", .int a.num_attention_heads),
   ("max_position_embeddings", .int a.max_position_embeddings),
   ("make_vocab_size_divisible_by", .int a.make_vocab_size_divisible_by),
   ("padded_vocab_size", .int a.padded_vocab_size),
   ("tokenizer_type", .str a.tokenizer_type),
   ("model_parallel_size", .int a.model_parallel_size)]

/-- The getattr view of a configuration carrying the eight architecture
fields. -/
def neoxGetattr (a : NeoxArchArgs) (s : String) : PyVal :=
  if s = "num_layers" then .int a.num_layers
  else if s = "hidden_size" then .int a.hidden_size
  else if s = "num_attention_heads" then .int a.num_attention_heads
  else if s = "max_position_embeddings" then .int a.max_position_embeddings
  else if s = "make_vocab_size_divisible_by" then .int a.make_vocab_size_divisible_by
  else if s = "padded_vocab_size" then .int a.padded_vocab_size
  else if s = "tokenizer_type" then .str a.tokenizer_type
  else if s = "model_parallel_size" then .int a.model_parallel_size
  else .str ""

/-- The literal the retention regex global_step with digit-star starts
with. -/
def gsPat : List Char := "global_step".data

/-- re.search of the pattern global_step followed by zero or more
digits: try every start position, at each one match the literal and
then greedily consume digits; the digit-star matches the empty string,
so the attempt succeeds exactly when the literal is a prefix of the
remaining text. -/
def searchGlobalStep (s : List Char) : Bool :=
  (List.range (s.length + 1)).any fun i => gsPat.isPrefixOf (s.drop i)

/-- One entry of the glob listing of the save directory: its basename
and whether it is a directory. -/
structure DirEntry where
  name : List Char
  isDir : Bool

/-- Python strip with the slash character: remove every leading and
trailing slash. -/
def pyStripSlashes (s : List Char) : List Char :=
  ((s.dropWhile fun c => c == '/').reverse.dropWhile fun c => c == '/').reverse

/-- The save_dir normalization of delete_old_checkpoints (lines
125-126): applied only when the directory path ends with a slash. -/
def normalizedSaveDir (save_dir : List Char) : List Char :=
  if save_dir.getLast? = some '/' then pyStripSlashes save_dir else save_dir

/-- Numeric value of a nonempty run of digit characters. -/
def digitsToNat (l : List Char) : Nat :=
  l.foldl (fun a c => a * 10 + (c.toNat - 48)) 0

/-- Modelled from the spec: megatron/utils.py (not under src/) supplies
natural_sort, a numeric-aware sort.  A sort key splits a string into
alternating non-digit and digit runs, lowercases the non-digit runs and
converts the digit runs to integers, mirroring a split on the pattern
of digit groups; fuel-driven, fuel beyond the length suffices. -/
def alphanumKeyF : Nat → List Char → List (List Char ⊕ Nat)
  | 0, _ => []
  | f + 1, s =>
    let a := s.takeWhile fun c => !c.isDigit
    let r := s.dropWhile fun c => !c.isDigit
    Sum.inl (a.map Char.toLower) ::
      match r with
      | [] => []
      | _ :: _ =>
        Sum.inr (digitsToNat (r.takeWhile Char.isDigit)) ::
          alphanumKeyF f (r.dropWhile Char.isDigit)

/-- Modelled from the spec: the natural-sort key of one string. -/
def alphanumKey (s : List Char) : List (List Char ⊕ Nat) :=
  alphanumKeyF (s.length + 1) s

/-- Three-way comparison of characters by code point. -/
def charCmp (a b : Char) : Ordering :=
  if a < b then .lt else if b < a then .gt else .eq

/-- Lexicographic three-way comparison of character lists, Python
string comparison. -/
def charListCmp : List Char → List Char → Ordering
  | [], [] => .eq
  | [], _ :: _ => .lt
  | _ :: _, [] => .gt
  | a :: as, b :: bs =>
    match charCmp a b with
    | .eq => charListCmp as bs
    | o => o

/-- Three-way comparison of naturals. -/
def natCmp (a b : Nat) : Ordering :=
  if a < b then .lt else if b < a then .gt else .eq

/-- Comparison of one key token.  Aligned natural-sort keys only ever
compare string runs with string runs and digit runs with digit runs;
the cross cases (a Python TypeError) are given an arbitrary order. -/
def tokCmp : (List Char ⊕ Nat) → (List Char ⊕ Nat) → Ordering
  | .inl x, .inl y => charListCmp x y
  | .inr x, .inr y => natCmp x y
  | .inl _, .inr _ => .lt
  | .inr _, .inl _ => .gt

/-- Lexicographic comparison of whole keys, Python list comparison. -/
def keyCmp : List (List Char ⊕ Nat) → List (List Char ⊕ Nat) → Ordering
  | [], [] => .eq
  | [], _ :: _ => .lt
  | _ :: _, [] => .gt
  | a :: as, b :: bs =>
    match tokCmp a b with
    | .eq => keyCmp as bs
    | o => o

/-- Stable insertion into a sorted list under a boolean
less-or-equal. -/
def insertLe (le : List Char → List Char → Bool) (x : List Char) :
    List (List Char) → List (List Char)
  | [] => [x]
  | y :: ys => if le x y then x :: y :: ys else y :: insertLe le x ys

/-- Stable insertion sort under a boolean less-or-equal. -/
def sortByLe (le : List Char → List Char → Bool) :
    List (List Char) → List (List Char)
  | [] => []
  | x :: xs => insertLe le x (sortByLe le xs)

/-- Modelled from the spec: natural_sort of megatron/utils.py, a stable
sort by the numeric-aware key, so that step_10 sorts after step_9. -/
def natural_sort (l : List (List Char)) : List (List Char) :=
  sortByLe (fun a b => keyCmp (alphanumKey a) (alphanumKey b) != Ordering.gt) l

/-- The candidate list of delete_old_checkpoints (lines 124-128): the
glob entries of the normalized save directory that are directories and
whose full path matches the global-step regex, in natural-sort order. -/
def all_ckpts (save_dir : List Char) (entries : List DirEntry) :
    List (List Char) :=
  natural_sort ((entries.filter fun e =>
    e.isDir && searchGlobalStep (normalizedSaveDir save_dir ++ '/' :: e.name)).map
      fun e => normalizedSaveDir save_dir ++ '/' :: e.name)

/-- delete_old_checkpoints from checkpointing.py (lines 122-137), the
rank-0 body, returning the to_delete list: when the candidate count
exceeds n_to_keep, the excess oldest candidates, otherwise nothing.
The recursive removal loop is modelled separately. -/
def delete_old_checkpoints (save_dir : List Char) (entries : List DirEntry)
    (n_to_keep : Int) : List (List Char) :=
  let all := all_ckpts save_dir entries
  let n_to_delete : Int := (all.length : Int) - n_to_keep
  if 0 < n_to_delete then all.take n_to_delete.toNat else []

/-- Outcome of one shutil.rmtree call. -/
inductive RmResult where
  | ok
  | notFound
  | ioError : String → RmResult
deriving DecidableEq

/-- The removal loop of delete_old_checkpoints (lines 133-137): each
directory is removed recursively; a FileNotFoundError is swallowed; any
other error propagates.  The ok result lists the directories actually
removed. -/
def delete_old_checkpoints_rm (rm : List Char → RmResult) :
    List (List Char) → Except String (List (List Char))
  | [] => .ok []
  | d :: rest =>
    match rm d with
    | .ok =>
      match delete_old_checkpoints_rm rm rest with
      | .ok removed => .ok (d :: removed)
      | .error e => .error e
    | .notFound => delete_old_checkpoints_rm rm rest
    | .ioError e => .error e

/-- Retention gating in save_checkpoint (lines 181-182): the cleanup
runs only when keep_last_n_checkpoints is not None; none models no
deletion being attempted at all. -/
def save_checkpoint_retention (keep_last_n_checkpoints : Option Int)
    (save_dir : List Char) (entries : List DirEntry)
    (rm : List Char → RmResult) : Option (Except String (List (List Char))) :=
  match keep_last_n_checkpoints with
  | none => none
  | some n => some (delete_old_checkpoints_rm rm
      (delete_old_checkpoints save_dir entries n))

/-- Fixture: a resume configuration (no finetune, RNG loading off, no
forward-pass validation). -/
def cfgResume : NeoxConfig := ⟨false, true, false, fun _ => PyVal.int 0⟩

/-- Fixture: a finetune configuration with RNG loading nominally on. -/
def cfgFinetune : NeoxConfig := ⟨true, false, false, fun _ => PyVal.int 0⟩

/-- Fixture: a record whose iteration field holds 0 and whose legacy
field is absent. -/
def sdIterZero : StateDict := ⟨some 0, none, none, none, none, none, none, none, none⟩

/-- Fixture: a record with stored iteration 5000 and all five RNG
states present. -/
def sdIter5000 : StateDict :=
  ⟨some 5000, none, none, none, some 1, some 1, some 1, some 1, some 1⟩

/-- Fixture: a record with stored iteration 7. -/
def sdIter7 : StateDict := ⟨some 7, none, none, none, none, none, none, none, none⟩

/-- Elementwise tensor equality followed by all() agrees with list
equality on same-shaped tensors. -/
theorem tensorAllEq_iff (a : List ℚ) : ∀ b : List ℚ, a.length = b.length →
    (tensorAllEq a b = true ↔ a = b) := by
  induction a with
  | nil =>
    intro b h
    cases b with
    | nil => simp [tensorAllEq]
    | cons y ys => simp at h
  | cons x xs ih =>
    intro b h
    cases b with
    | nil => simp at h
    | cons y ys =>
      have hys := ih ys (by simpa using h)
      simp only [tensorAllEq] at hys ⊢
      simp only [List.zip_cons_cons, List.all_cons, Bool.and_eq_true, beq_iff_eq]
      constructor
      · intro hp
        rw [hp.1, hys.mp hp.2]
      · intro hcons
        injection hcons with h1 h2
        exact ⟨h1, hys.mpr h2⟩

/-- C5: in the forward-pass re-validation check, on a rank holding
logits of the saved shape, exact equality passes silently, a non-exact
but torch-close tensor passes with only a warning, a non-close tensor is
the fatal assertion, and a rank without logits compares nothing and
raises nothing. -/
theorem check_forward_pass_policy :
    (∀ (l c : List ℚ), l.length = c.length →
      ((l = c → check_forward_pass (some l) c = .silent) ∧
       (l ≠ c → tensorAllClose l c = true → check_forward_pass (some l) c = .warned) ∧
       (l ≠ c → tensorAllClose l c = false → check_forward_pass (some l) c = .fatal))) ∧
    (∀ c : List ℚ, check_forward_pass none c = .skipped) := by
  constructor
  · intro l c hlen
    refine ⟨?_, ?_, ?_⟩
    · intro he
      subst he
      simp [check_forward_pass, (tensorAllEq_iff l l rfl).mpr rfl]
    · intro hne hclose
      have heq : tensorAllEq l c = false := by
        cases h : tensorAllEq l c with
        | true => exact absurd ((tensorAllEq_iff l c hlen).mp h) hne
        | false => rfl
      simp [check_forward_pass, heq, hclose]
    · intro hne hfar
      have heq : tensorAllEq l c = false := by
        cases h : tensorAllEq l c with
        | true => exact absurd ((tensorAllEq_iff l c hlen).mp h) hne
        | false => rfl
      simp [check_forward_pass, heq, hfar]
  · intro c
    rfl

/-- Witness for C5 at concrete tensors: a tensor off by one millionth
warns, a tensor off by one is fatal, an identical tensor is silent. -/
theorem check_forward_pass_witness :
    check_forward_pass (some [(1 : ℚ), 1 + 1 / 1000000]) [1, 1] = .warned ∧
    check_forward_pass (some [(2 : ℚ)]) [1] = .fatal ∧
    check_forward_pass (some [(1 : ℚ), 2]) [1, 2] = .silent :=
  ⟨(check_forward_pass_policy.1 [(1 : ℚ), 1 + 1 / 1000000] [1, 1] rfl).2.1
      (by norm_num)
      (by
        simp only [tensorAllClose, List.zip_cons_cons, List.zip_nil_right,
          List.all_cons, List.all_nil, Bool.and_eq_true, decide_eq_true_eq,
          and_true]
        norm_num [torchAtol, torchRtol, abs_le]),
   (check_forward_pass_policy.1 [(2 : ℚ)] [1] rfl).2.2
      (by norm_num)
      (by
        simp only [tensorAllClose, List.zip_cons_cons, List.zip_nil_right,
          List.all_cons, List.all_nil, Bool.and_true]
        rw [decide_eq_false_iff_not]
        norm_num [torchAtol, torchRtol]),
   (check_forward_pass_policy.1 [(1 : ℚ), 2] [1, 2] rfl).1 rfl⟩

/-- Counterexample for C6: a model that enters do_forward_pass in train
mode and whose forward pass raises is left in eval mode, so the exit
mode does not equal the entry mode on the failure path. -/
theorem do_forward_pass_mode_cex :
    (do_forward_pass_mode true true).1 = false ∧
      (do_forward_pass_mode true true).1 ≠ true := by
  decide

/-- C6 amended: do_forward_pass restores the original train/eval mode on
every normal completion, but on a path where the forward pass raises the
restore never runs and the model stays in eval mode. -/
theorem do_forward_pass_mode_restoration :
    ∀ t : Bool,
      (do_forward_pass_mode t false).1 = t ∧
      (do_forward_pass_mode t false).2 = true ∧
      (do_forward_pass_mode t true).1 = false ∧
      (do_forward_pass_mode t true).2 = false := by
  decide

/-- C8: a load in which no checkpoint is located returns iteration 0
with no RNG restoration and raises nothing. -/
theorem load_checkpoint_not_found_cold_start :
    ∀ (cfg : NeoxConfig) (nl : Option (List ℚ)),
      load_checkpoint cfg none nl = .ok ⟨0, false⟩ :=
  fun _ _ => rfl

/-- An error leaving the argument-check step is an argument-mismatch
error. -/
theorem checkArgsStep_error_shape (g : String → PyVal)
    (args : Option (List (String × PyVal))) (e : LoadError)
    (h : checkArgsStep g args = .error e) : ∃ m, e = .argsMismatch m := by
  unfold checkArgsStep at h
  split at h
  · split at h
    · simp at h
    · simp at h
      exact ⟨_, h.symm⟩
  · simp at h

/-- An error leaving the forward-validation step is the forward
mismatch error. -/
theorem forwardStep_error_shape (cfg : NeoxConfig) (sd : StateDict)
    (nl : Option (List ℚ)) (e : LoadError)
    (h : forwardStep cfg sd nl = .error e) : e = .forwardMismatch := by
  unfold forwardStep at h
  split at h
  · split at h
    · split at h
      · simp at h
        exact h.symm
      · simp at h
    · simp at h
  · simp at h

/-- An error leaving the RNG-restoration step is the missing-RNG
error. -/
theorem rngStep_error_shape (cfg : NeoxConfig) (sd : StateDict) (e : LoadError)
    (h : rngStep cfg sd = .error e) : e = .rngMissing := by
  unfold rngStep at h
  split at h
  · split at h
    · simp at h
    · simp at h
      exact h.symm
  · simp at h

/-- C7: a finetune load of a found checkpoint that completes returns
iteration 0 whatever iteration the record stores, and never restores
RNG state even when all RNG states are present. -/
theorem load_checkpoint_finetune_reset :
    ∀ (cfg : NeoxConfig) (sd : StateDict) (nl : Option (List ℚ)),
      cfg.finetune = true →
      ∀ out, load_checkpoint cfg (some sd) nl = .ok out →
        out.iteration = 0 ∧ out.rngRestored = false := by
  intro cfg sd nl hft out h
  have hres : resolveIteration cfg.finetune sd = .ok 0 := by
    simp [resolveIteration, hft]
  have hrng : rngStep cfg sd = .ok false := by
    simp [rngStep, hft]
  simp only [load_checkpoint, hres] at h
  cases hargs : checkArgsStep cfg.argOf sd.args with
  | error e => rw [hargs] at h; simp at h
  | ok u =>
    cases u
    rw [hargs] at h
    cases hfs : forwardStep cfg sd nl with
    | error e => rw [hfs] at h; simp at h
    | ok u2 =>
      cases u2
      rw [hfs] at h
      rw [hrng] at h
      simp at h
      rw [← h]
      exact ⟨rfl, rfl⟩

/-- Witness for C7: a finetune load over a record storing iteration
5000 with full RNG state completes with iteration 0 and no RNG
restoration. -/
theorem load_checkpoint_finetune_witness :
    (LoadOutcome.mk 0 false).iteration = 0 ∧
      (LoadOutcome.mk 0 false).rngRestored = false :=
  load_checkpoint_finetune_reset cfgFinetune sdIter5000 none rfl ⟨0, false⟩ rfl

/-- C9: retention cleanup is gated on the keep-last count being set,
swallows a missing-directory error as already deleted, propagates any
other I/O error, and removes exactly the surviving directories when no
other error occurs. -/
theorem save_checkpoint_retention_best_effort :
    (∀ save_dir entries rm,
      save_checkpoint_retention none save_dir entries rm = none) ∧
    (∀ (rm : List Char → RmResult) d rest, rm d = .notFound →
      delete_old_checkpoints_rm rm (d :: rest) = delete_old_checkpoints_rm rm rest) ∧
    (∀ (rm : List Char → RmResult) d rest msg, rm d = .ioError msg →
      delete_old_checkpoints_rm rm (d :: rest) = .error msg) ∧
    (∀ (rm : List Char → RmResult) l,
      (∀ d ∈ l, rm d = .ok ∨ rm d = .notFound) →
      delete_old_checkpoints_rm rm l = .ok (l.filter fun d => rm d == RmResult.ok)) := by
  refine ⟨fun _ _ _ => rfl, ?_, ?_, ?_⟩
  · intro rm d rest hd
    simp [delete_old_checkpoints_rm, hd]
  · intro rm d rest msg hd
    simp [delete_old_checkpoints_rm, hd]
  · intro rm l hl
    induction l with
    | nil => rfl
    | cons d rest ih =>
      have hrest := fun x hx => hl x (List.mem_cons_of_mem d hx)
      cases hl d (List.mem_cons_self d rest) with
      | inl hok =>
        simp [delete_old_checkpoints_rm, hok, ih hrest, List.filter_cons]
      | inr hnf =>
        simp [delete_old_checkpoints_rm, hnf, ih hrest, List.filter_cons]

/-- Witness for C9: a missing directory is skipped, and an error-free
run removes every directory the removal succeeds on. -/
theorem save_checkpoint_retention_witness :
    delete_old_checkpoints_rm (fun _ => RmResult.notFound) ["a".data] =
      delete_old_checkpoints_rm (fun _ => RmResult.notFound) [] ∧
    delete_old_checkpoints_rm (fun _ => RmResult.ok) ["b".data] =
      .ok (["b".data].filter fun d => (fun _ => RmResult.ok) d == RmResult.ok) :=
  ⟨save_checkpoint_retention_best_effort.2.1 _ "a".data [] rfl,
   save_checkpoint_retention_best_effort.2.2.2 _ ["b".data]
     (fun _ _ => Or.inl rfl)⟩

/-- C4: the argument check succeeds exactly when every stored field
equals the same-named current field; a failure carries the message
naming the offending field, the checkpoint value and the current value;
a record without args is skipped without error; and the args written by
save_ds_checkpoint always pass against the configuration that wrote
them. -/
theorem check_checkpoint_args_policy :
    (∀ (g : String → PyVal) (args : List (String × PyVal)),
      check_checkpoint_args g args = .ok () ↔ ∀ p ∈ args, p.2 = g p.1) ∧
    (∀ (g : String → PyVal) (args : List (String × PyVal)) (m : String),
      check_checkpoint_args g args = .error m →
        ∃ n v, (n, v) ∈ args ∧ v ≠ g n ∧
          m = checkpointArgErrorMessage n v (g n)) ∧
    (∀ g : String → PyVal, checkArgsStep g none = .ok ()) ∧
    (∀ a : NeoxArchArgs,
      check_checkpoint_args (neoxGetattr a) (savedArchArgs a) = .ok ()) := by
  refine ⟨?_, ?_, fun _ => rfl, ?_⟩
  · intro g args
    induction args with
    | nil => simp [check_checkpoint_args]
    | cons p rest ih =>
      obtain ⟨n, v⟩ := p
      by_cases hv : v = g n
      · simp [check_checkpoint_args, hv, ih]
      · simp only [check_checkpoint_args, if_neg hv]
        constructor
        · intro h
          simp at h
        · intro hall
          exact absurd (hall (n, v) (List.mem_cons_self _ _)) hv
  · intro g args
    induction args with
    | nil => intro m h; simp [check_checkpoint_args] at h
    | cons p rest ih =>
      obtain ⟨n, v⟩ := p
      intro m h
      by_cases hv : v = g n
      · rw [check_checkpoint_args, if_pos hv] at h
        obtain ⟨n2, v2, hmem, hne, hm⟩ := ih m h
        exact ⟨n2, v2, List.mem_cons_of_mem _ hmem, hne, hm⟩
      · rw [check_checkpoint_args, if_neg hv] at h
        simp at h
        exact ⟨n, v, List.mem_cons_self _ _, hv, h.symm⟩
  · intro a
    simp [savedArchArgs, check_checkpoint_args, neoxGetattr]

/-- Witness for C4: a mismatching stored field produces the error
naming the field and both values. -/
theorem check_checkpoint_args_witness :
    ∃ n v, (n, v) ∈ [("num_layers", PyVal.int 1)] ∧
      v ≠ (fun _ => PyVal.int 2) n ∧
      checkpointArgErrorMessage "num_layers" (PyVal.int 1) (PyVal.int 2) =
        checkpointArgErrorMessage n v ((fun _ => PyVal.int 2) n) :=
  check_checkpoint_args_policy.2.1 (fun _ => PyVal.int 2)
    [("num_layers", PyVal.int 1)]
    (checkpointArgErrorMessage "num_layers" (PyVal.int 1) (PyVal.int 2)) rfl

/-- Counterexample for C1: a found record whose iteration field exists
and holds 0, with the legacy field absent, still raises the fatal
missing-iteration error on a non-finetune load, because the code reads
the field through a truthiness-or, so the claimed equivalence with
neither field existing fails. -/
theorem load_checkpoint_iteration_resolution_cex :
    sdIterZero.iteration = some 0 ∧ sdIterZero.iteration ≠ none ∧
      load_checkpoint cfgResume (some sdIterZero) none =
        .error .missingIteration := by
  refine ⟨rfl, by simp [sdIterZero], rfl⟩

/-- C1 amended: on a non-finetune load of a found record, the fatal
missing-iteration error is raised exactly when the truthiness-or of the
iteration field and the legacy total_iters field is None (the iteration
field absent or storing 0 and total_iters absent), and a completed load
returns that truthiness-or value. -/
theorem load_checkpoint_iteration_resolution :
    ∀ (cfg : NeoxConfig) (sd : StateDict) (nl : Option (List ℚ)),
      cfg.finetune = false →
      ((load_checkpoint cfg (some sd) nl = .error .missingIteration ↔
        pyOr sd.iteration sd.total_iters = none) ∧
       (∀ v : Int, pyOr sd.iteration sd.total_iters = some v →
         ∀ out, load_checkpoint cfg (some sd) nl = .ok out →
           out.iteration = v)) := by
  intro cfg sd nl hft
  cases hpo : pyOr sd.iteration sd.total_iters with
  | none =>
    have hload : load_checkpoint cfg (some sd) nl = .error .missingIteration := by
      have hres : resolveIteration cfg.finetune sd = .error .missingIteration := by
        simp [resolveIteration, hft, hpo]
      simp [load_checkpoint, hres]
    refine ⟨by simp [hload], ?_⟩
    intro v hv
    simp at hv
  | some v0 =>
    have hres : resolveIteration cfg.finetune sd = .ok v0 := by
      simp [resolveIteration, hft, hpo]
    constructor
    · constructor
      · intro h
        exfalso
        simp only [load_checkpoint, hres] at h
        cases hargs : checkArgsStep cfg.argOf sd.args with
        | error e =>
          rw [hargs] at h
          obtain ⟨m, rfl⟩ := checkArgsStep_error_shape _ _ _ hargs
          simp at h
        | ok u =>
          cases u
          rw [hargs] at h
          cases hfs : forwardStep cfg sd nl with
          | error e =>
            rw [hfs] at h
            have := forwardStep_error_shape _ _ _ _ hfs
            subst this
            simp at h
          | ok u2 =>
            cases u2
            rw [hfs] at h
            cases hrng : rngStep cfg sd with
            | error e =>
              rw [hrng] at h
              have := rngStep_error_shape _ _ _ hrng
              subst this
              simp at h
            | ok b =>
              rw [hrng] at h
              simp at h
      · intro h
        simp at h
    · intro v hv out hout
      injection hv with hv
      subst hv
      simp only [load_checkpoint, hres] at hout
      cases hargs : checkArgsStep cfg.argOf sd.args with
      | error e => rw [hargs] at hout; simp at hout
      | ok u =>
        cases u
        rw [hargs] at hout
        cases hfs : forwardStep cfg sd nl with
        | error e => rw [hfs] at hout; simp at hout
        | ok u2 =>
          cases u2
          rw [hfs] at hout
          cases hrng : rngStep cfg sd with
          | error e => rw [hrng] at hout; simp at hout
          | ok b =>
            rw [hrng] at hout
            simp at hout
            rw [← hout]

/-- Witness for C1 amended: on a record storing iteration 7 the
equivalence holds and a completed load yields 7. -/
theorem load_checkpoint_iteration_resolution_witness :
    ((load_checkpoint cfgResume (some sdIter7) none = .error .missingIteration ↔
      pyOr sdIter7.iteration sdIter7.total_iters = none) ∧
     (LoadOutcome.mk 7 false).iteration = 7) :=
  ⟨(load_checkpoint_iteration_resolution cfgResume sdIter7 none rfl).1,
   (load_checkpoint_iteration_resolution cfgResume sdIter7 none rfl).2 7 rfl
     ⟨7, false⟩ rfl⟩

/-- C2: the to_delete list of a retention run is exactly the
natural-order-oldest prefix of the candidate list whose length is the
candidate count minus keep_n (clamped at zero when keep_n covers every
candidate), and with keep_n 2 over five checkpoint directories exactly
the three numerically oldest are deleted. -/
theorem delete_old_checkpoints_oldest_first :
    (∀ save_dir entries (n_to_keep : Int),
      delete_old_checkpoints save_dir entries n_to_keep =
        (all_ckpts save_dir entries).take
          (((all_ckpts save_dir entries).length : Int) - n_to_keep).toNat) ∧
    delete_old_checkpoints "ckpts".data
      [⟨"global_step2000".data, true⟩, ⟨"global_step100".data, true⟩,
       ⟨"global_step5000".data, true⟩, ⟨"global_step300".data, true⟩,
       ⟨"global_step1000".data, true⟩] 2 =
      ["ckpts/global_step100".data, "ckpts/global_step300".data,
       "ckpts/global_step1000".data] := by
  constructor
  · intro sd e k
    unfold delete_old_checkpoints
    by_cases h : (0 : Int) < ((all_ckpts sd e).length : Int) - k
    · simp [h]
    · rw [if_neg h, Int.toNat_of_nonpos (by omega), List.take_zero]
  · decide

/-- The position-wise regex search succeeds exactly when the literal
occurs as a contiguous substring. -/
theorem searchGlobalStep_iff (s : List Char) :
    searchGlobalStep s = true ↔ gsPat <:+: s := by
  constructor
  · intro h
    unfold searchGlobalStep at h
    rw [List.any_eq_true] at h
    obtain ⟨i, hi, hp⟩ := h
    rw [List.isPrefixOf_iff_prefix] at hp
    obtain ⟨t, ht⟩ := hp
    exact ⟨s.take i, t, by rw [List.append_assoc, ht, List.take_append_drop]⟩
  · intro h
    obtain ⟨p, t, hpt⟩ := h
    unfold searchGlobalStep
    rw [List.any_eq_true]
    refine ⟨p.length, ?_, ?_⟩
    · rw [List.mem_range]
      have hlen : s.length = p.length + (gsPat ++ t).length := by
        rw [← hpt]
        simp [List.length_append]
      omega
    · rw [List.isPrefixOf_iff_prefix]
      have hd : s.drop p.length = gsPat ++ t := by
        rw [← hpt, List.append_assoc, List.drop_left]
      rw [hd]
      exact ⟨t, rfl⟩

/-- Membership is preserved by ordered insertion. -/
theorem mem_insertLe (le : List Char → List Char → Bool) (x a : List Char) :
    ∀ l, a ∈ insertLe le x l ↔ a = x ∨ a ∈ l := by
  intro l
  induction l with
  | nil => simp [insertLe]
  | cons y ys ih =>
    unfold insertLe
    by_cases h : le x y
    · simp [h]
    · simp only [h, Bool.false_eq_true, if_false, List.mem_cons, ih]
      tauto

/-- Membership is preserved by the insertion sort. -/
theorem mem_sortByLe (le : List Char → List Char → Bool) (a : List Char) :
    ∀ l, a ∈ sortByLe le l ↔ a ∈ l := by
  intro l
  induction l with
  | nil => simp [sortByLe]
  | cons y ys ih =>
    unfold sortByLe
    rw [mem_insertLe, ih, List.mem_cons]

/-- Membership is preserved by natural_sort. -/
theorem mem_natural_sort (a : List Char) (l : List (List Char)) :
    a ∈ natural_sort l ↔ a ∈ l :=
  mem_sortByLe _ a l

/-- C10: the discovery predicate of the retention run matches a full
glob path exactly when the literal global_step occurs anywhere in it
(the digit-star may match nothing), so any directory entry whose full
path contains that substring is a deletion candidate, and in particular
when the normalized save directory itself contains the substring every
subdirectory entry becomes a deletion candidate. -/
theorem delete_old_checkpoints_discovery_predicate :
    (∀ s : List Char, searchGlobalStep s = true ↔ gsPat <:+: s) ∧
    (∀ save_dir entries (e : DirEntry), e ∈ entries → e.isDir = true →
      gsPat <:+: (normalizedSaveDir save_dir ++ '/' :: e.name) →
      (normalizedSaveDir save_dir ++ '/' :: e.name) ∈ all_ckpts save_dir entries) ∧
    (∀ save_dir entries (e : DirEntry), e ∈ entries → e.isDir = true →
      gsPat <:+: normalizedSaveDir save_dir →
      (normalizedSaveDir save_dir ++ '/' :: e.name) ∈ all_ckpts save_dir entries) := by
  have h2 : ∀ save_dir entries (e : DirEntry), e ∈ entries → e.isDir = true →
      gsPat <:+: (normalizedSaveDir save_dir ++ '/' :: e.name) →
      (normalizedSaveDir save_dir ++ '/' :: e.name) ∈ all_ckpts save_dir entries := by
    intro sd entries e he hdir hinf
    unfold all_ckpts
    rw [mem_natural_sort, List.mem_map]
    refine ⟨e, ?_, rfl⟩
    rw [List.mem_filter]
    refine ⟨he, ?_⟩
    simp [hdir, (searchGlobalStep_iff _).mpr hinf]
  refine ⟨searchGlobalStep_iff, h2, ?_⟩
  intro sd entries e he hdir hinf
  apply h2 sd entries e he hdir
  obtain ⟨p, t, hpt⟩ := hinf
  exact ⟨p, t ++ '/' :: e.name, by rw [← hpt]; simp [List.append_assoc]⟩

/-- Witness for C10: a save directory whose own path contains
global_step makes an arbitrarily named subdirectory a deletion
candidate. -/
theorem delete_old_checkpoints_discovery_witness :
    (normalizedSaveDir "runs/global_step_all".data ++ '/' :: "foo".data) ∈
      all_ckpts "runs/global_step_all".data [⟨"foo".data, true⟩] :=
  delete_old_checkpoints_discovery_predicate.2.2 "runs/global_step_all".data
    [⟨"foo".data, true⟩] ⟨"foo".data, true⟩ (List.mem_singleton_self _) rfl
    (by decide)

/-- The fuel argument of the decimal renderer is irrelevant once it
exceeds the number. -/
theorem decCharsF_congr : ∀ f g n, n < f → n < g → decCharsF f n = decCharsF g n := by
  intro f
  induction f with
  | zero => intro g n hf _; omega
  | succ f ih =>
    intro g n hf hg
    cases g with
    | zero => omega
    | succ g =>
      simp only [decCharsF]
      by_cases h10 : n < 10
      · rw [if_pos h10, if_pos h10]
      · rw [if_neg h10, if_neg h10]
        have hdiv : n / 10 < n := Nat.div_lt_self (by omega) (by omega)
        rw [ih g (n / 10) (by omega) (by omega)]

/-- Unfolding equation of the decimal renderer. -/
theorem decChars_eq (n : Nat) : decChars n =
    if n < 10 then [digitChar n]
    else decChars (n / 10) ++ [digitChar (n % 10)] := by
  by_cases h : n < 10
  · rw [if_pos h]
    show decCharsF (n + 1) n = [digitChar n]
    simp only [decCharsF]
    rw [if_pos h]
  · rw [if_neg h]
    have hdiv : n / 10 < n := Nat.div_lt_self (by omega) (by omega)
    show decCharsF (n + 1) n = decCharsF (n / 10 + 1) (n / 10) ++ [digitChar (n % 10)]
    have h1 : decCharsF (n + 1) n = decCharsF n (n / 10) ++ [digitChar (n % 10)] := by
      simp only [decCharsF]
      rw [if_neg h]
    rw [h1, decCharsF_congr n (n / 10 + 1) (n / 10) (by omega) (by omega)]

/-- The decimal rendering of a natural number is never empty. -/
theorem decChars_ne_nil (n : Nat) : decChars n ≠ [] := by
  rw [decChars_eq]
  by_cases h : n < 10
  · simp [h]
  · simp [h]

/-- Digit characters below ten are pairwise distinct. -/
theorem digitChar_inj10 : ∀ m, m < 10 → ∀ n, n < 10 → digitChar m = digitChar n → m = n := by
  decide

/-- No digit character is a slash. -/
theorem digitChar_ne_slash : ∀ m, m < 10 → digitChar m ≠ '/' := by
  decide

/-- Only the digit zero renders as the zero character. -/
theorem digitChar_eq_zero : ∀ m, m < 10 → digitChar m = '0' → m = 0 := by
  decide

/-- Every character of a decimal rendering is a digit character. -/
theorem decChars_digit (n : Nat) : ∀ c ∈ decChars n, ∃ d, d < 10 ∧ c = digitChar d := by
  induction n using Nat.strong_induction_on with
  | _ n ih =>
    rw [decChars_eq]
    by_cases h : n < 10
    · rw [if_pos h]
      intro c hc
      rw [List.mem_singleton] at hc
      exact ⟨n, h, hc⟩
    · rw [if_neg h]
      intro c hc
      rw [List.mem_append] at hc
      cases hc with
      | inl hc => exact ih (n / 10) (Nat.div_lt_self (by omega) (by omega)) c hc
      | inr hc =>
        rw [List.mem_singleton] at hc
        exact ⟨n % 10, Nat.mod_lt n (by omega), hc⟩

/-- No character of a decimal rendering is a slash. -/
theorem decChars_ne_slash (n : Nat) : ∀ c ∈ decChars n, c ≠ '/' := by
  intro c hc
  obtain ⟨d, hd, rfl⟩ := decChars_digit n c hc
  exact digitChar_ne_slash d hd

/-- Zero renders as the single zero character. -/
theorem decChars_zero : decChars 0 = ['0'] := by
  decide

/-- A decimal rendering starting with the zero character is the
rendering of zero, there are no leading zeros otherwise. -/
theorem decChars_head_zero : ∀ n t, decChars n = '0' :: t → n = 0 := by
  intro n
  induction n using Nat.strong_induction_on with
  | _ n ih =>
    intro t h
    rw [decChars_eq] at h
    by_cases h10 : n < 10
    · rw [if_pos h10] at h
      injection h with h1 _
      exact digitChar_eq_zero n h10 h1
    · rw [if_neg h10] at h
      exfalso
      cases hq : decChars (n / 10) with
      | nil => exact decChars_ne_nil _ hq
      | cons c cs =>
        rw [hq, List.cons_append] at h
        injection h with h1 _
        have hz : n / 10 = 0 :=
          ih (n / 10) (Nat.div_lt_self (by omega) (by omega)) cs (by rw [hq, h1])
        omega

/-- The decimal rendering is injective. -/
theorem decChars_inj (m : Nat) : ∀ n, decChars m = decChars n → m = n := by
  induction m using Nat.strong_induction_on with
  | _ m ih =>
    intro n h
    rw [decChars_eq m, decChars_eq n] at h
    by_cases hm : m < 10 <;> by_cases hn : n < 10
    · rw [if_pos hm, if_pos hn] at h
      injection h with h1 _
      exact digitChar_inj10 m hm n hn h1
    · rw [if_pos hm, if_neg hn] at h
      exfalso
      have hlen := congrArg List.length h
      rw [List.length_singleton, List.length_append, List.length_singleton] at hlen
      exact decChars_ne_nil (n / 10) (List.length_eq_zero.mp (by omega))
    · rw [if_neg hm, if_pos hn] at h
      exfalso
      have hlen := congrArg List.length h
      rw [List.length_singleton, List.length_append, List.length_singleton] at hlen
      exact decChars_ne_nil (m / 10) (List.length_eq_zero.mp (by omega))
    · rw [if_neg hm, if_neg hn] at h
      have hrev := congrArg List.reverse h
      simp [List.reverse_append] at hrev
      obtain ⟨h1, h2⟩ := hrev
      have hmod : m % 10 = n % 10 :=
        digitChar_inj10 _ (Nat.mod_lt _ (by omega)) _ (Nat.mod_lt _ (by omega)) h1
      have hdiv : m / 10 = n / 10 :=
        ih (m / 10) (Nat.div_lt_self (by omega) (by omega)) (n / 10) h2
      omega

/-- Zero padding of decimal renderings is injective whatever the two
padding amounts are, because renderings carry no leading zero. -/
theorem zfill_decChars_inj : ∀ a b m n,
    List.replicate a '0' ++ decChars m = List.replicate b '0' ++ decChars n →
      m = n := by
  intro a
  induction a with
  | zero =>
    intro b m n h
    cases b with
    | zero =>
      simp only [List.replicate, List.nil_append] at h
      exact decChars_inj m n h
    | succ b =>
      rw [List.replicate_succ] at h
      simp only [List.nil_append, List.cons_append] at h
      have hm := decChars_head_zero m _ h
      subst hm
      rw [decChars_zero] at h
      injection h with _ h2
      exfalso
      exact decChars_ne_nil n (List.append_eq_nil.mp h2.symm).2
  | succ a iha =>
    intro b m n h
    cases b with
    | zero =>
      rw [List.replicate_succ] at h
      simp only [List.nil_append, List.cons_append] at h
      have hn := decChars_head_zero n _ h.symm
      subst hn
      rw [decChars_zero] at h
      injection h with _ h2
      exfalso
      exact decChars_ne_nil m (List.append_eq_nil.mp h2).2
    | succ b =>
      rw [List.replicate_succ, List.replicate_succ, List.cons_append,
        List.cons_append] at h
      injection h with _ h2
      exact iha b m n h2

/-- The zero-padded decimal format is injective at every width. -/
theorem pyFormat0_inj (w m n : Nat) (h : pyFormat0 w m = pyFormat0 w n) : m = n :=
  zfill_decChars_inj _ _ m n h

/-- No character of a zero-padded decimal is a slash. -/
theorem pyFormat0_ne_slash (w n : Nat) : ∀ c ∈ pyFormat0 w n, c ≠ '/' := by
  intro c hc
  rw [pyFormat0, zfill, List.mem_append] at hc
  cases hc with
  | inl hc =>
    rw [List.eq_of_mem_replicate hc]
    decide
  | inr hc => exact decChars_ne_slash n c hc

/-- A zero-padded decimal is never empty. -/
theorem pyFormat0_ne_nil (w n : Nat) : pyFormat0 w n ≠ [] := by
  rw [pyFormat0, zfill]
  intro h
  exact decChars_ne_nil n (List.append_eq_nil.mp h).2

/-- A list with a first element is not empty. -/
theorem ne_nil_of_head_some (l : List Char) (c : Char) (h : l.head? = some c) :
    l ≠ [] := by
  intro hn
  rw [hn] at h
  simp at h

/-- The last element of a list is one of its members. -/
theorem mem_of_getLast_some : ∀ (l : List Char) (c : Char),
    l.getLast? = some c → c ∈ l := by
  intro l
  induction l with
  | nil => intro c h; simp at h
  | cons x xs ih =>
    intro c h
    cases xs with
    | nil =>
      simp at h
      simp [h]
    | cons y ys =>
      rw [List.getLast?_cons_cons] at h
      exact List.mem_cons_of_mem x (ih c h)

/-- Splitting two slash-free prefixes at their first slash separator. -/
theorem splitAtSlash : ∀ (a : List Char), (∀ c ∈ a, c ≠ '/') →
    ∀ (b : List Char), (∀ c ∈ b, c ≠ '/') → ∀ u v,
      a ++ '/' :: u = b ++ '/' :: v → a = b ∧ u = v := by
  intro a
  induction a with
  | nil =>
    intro _ b hb u v h
    cases b with
    | nil =>
      simp only [List.nil_append] at h
      injection h with _ h2
      exact ⟨rfl, h2⟩
    | cons c cs =>
      rw [List.nil_append, List.cons_append] at h
      injection h with h1 _
      exact absurd h1.symm (hb c (List.mem_cons_self c cs))
  | cons d ds ih =>
    intro ha b hb u v h
    cases b with
    | nil =>
      rw [List.cons_append, List.nil_append] at h
      injection h with h1 _
      exact absurd h1 (ha d (List.mem_cons_self d ds))
    | cons c cs =>
      rw [List.cons_append, List.cons_append] at h
      injection h with h1 h2
      obtain ⟨hds, huv⟩ := ih (fun x hx => ha x (List.mem_cons_of_mem d hx)) cs
        (fun x hx => hb x (List.mem_cons_of_mem c hx)) u v h2
      exact ⟨by rw [h1, hds], huv⟩

/-- pyJoin with a non-absolute second component prepends the join
prefix of the first component. -/
theorem pyJoin_eq (a b : List Char) (hb : b.head? ≠ some '/') :
    pyJoin a b = joinPre a ++ b := by
  unfold pyJoin joinPre
  rw [if_neg hb]
  by_cases ha : a = []
  · rw [if_pos ha, if_pos ha, List.nil_append]
  · rw [if_neg ha, if_neg ha]
    by_cases hl : a.getLast? = some '/'
    · rw [if_pos hl, if_pos hl]
    · rw [if_neg hl, if_neg hl, List.append_assoc]
      rfl

/-- pyJoin with a nonempty first component not ending in a slash and a
non-absolute second component inserts one separator. -/
theorem pyJoin_mid (a b : List Char) (ha : a ≠ []) (hl : a.getLast? ≠ some '/')
    (hb : b.head? ≠ some '/') : pyJoin a b = a ++ '/' :: b := by
  unfold pyJoin
  rw [if_neg hb, if_neg ha, if_neg hl]

/-- Normal form of a non-release checkpoint path: the join prefix of
the root, the iteration directory, one separator, the rank directory,
one separator and the payload filename. -/
theorem get_checkpoint_name_false_eq (root : List Char) (i r : Nat) :
    get_checkpoint_name root i false r =
      joinPre root ++ (iterDirChars i ++
        '/' :: (rankDirChars r ++ '/' :: "model_optim_rng.pt".data)) := by
  have hihead : (iterDirChars i).head? = some 'i' := rfl
  have hrhead : (rankDirChars r).head? = some 'm' := rfl
  have hfhead : ("model_optim_rng.pt".data).head? = some 'm' := rfl
  have hine : iterDirChars i ≠ [] := ne_nil_of_head_some _ _ hihead
  have hrne : rankDirChars r ≠ [] := ne_nil_of_head_some _ _ hrhead
  have h1 : pyJoin root (iterDirChars i) = joinPre root ++ iterDirChars i :=
    pyJoin_eq _ _ (by rw [hihead]; decide)
  have hilast : (joinPre root ++ iterDirChars i).getLast? ≠ some '/' := by
    rw [List.getLast?_append_of_ne_nil _ hine, iterDirChars,
      List.getLast?_append_of_ne_nil _ (pyFormat0_ne_nil 7 i)]
    intro hcon
    exact pyFormat0_ne_slash 7 i '/' (mem_of_getLast_some _ _ hcon) rfl
  have h2 : pyJoin (joinPre root ++ iterDirChars i) (rankDirChars r) =
      (joinPre root ++ iterDirChars i) ++ '/' :: rankDirChars r :=
    pyJoin_mid _ _ (by simp [List.append_eq_nil, hine]) hilast
      (by rw [hrhead]; decide)
  have h3last : ((joinPre root ++ iterDirChars i) ++
      '/' :: rankDirChars r).getLast? ≠ some '/' := by
    rw [List.getLast?_append_of_ne_nil _ (List.cons_ne_nil '/' (rankDirChars r)),
      show ('/' :: rankDirChars r) = ['/'] ++ rankDirChars r from rfl,
      List.getLast?_append_of_ne_nil _ hrne, rankDirChars,
      List.getLast?_append_of_ne_nil _ (pyFormat0_ne_nil 2 r)]
    intro hcon
    exact pyFormat0_ne_slash 2 r '/' (mem_of_getLast_some _ _ hcon) rfl
  have h3 : pyJoin ((joinPre root ++ iterDirChars i) ++ '/' :: rankDirChars r)
      "model_optim_rng.pt".data =
      ((joinPre root ++ iterDirChars i) ++ '/' :: rankDirChars r) ++
        '/' :: "model_optim_rng.pt".data :=
    pyJoin_mid _ _ (by simp) h3last (by rw [hfhead]; decide)
  show pyJoin (pyJoin (pyJoin root (iterDirChars i)) (rankDirChars r))
      "model_optim_rng.pt".data = _
  rw [h1, h2, h3]
  simp [List.append_assoc]

/-- Normal form of a release checkpoint path: the iteration is not
consulted at all. -/
theorem get_checkpoint_name_true_eq (root : List Char) (i r : Nat) :
    get_checkpoint_name root i true r =
      joinPre root ++ ("release".data ++
        '/' :: (rankDirChars r ++ '/' :: "model_optim_rng.pt".data)) := by
  have hrhead : (rankDirChars r).head? = some 'm' := rfl
  have hfhead : ("model_optim_rng.pt".data).head? = some 'm' := rfl
  have hrne : rankDirChars r ≠ [] := ne_nil_of_head_some _ _ hrhead
  have hrelne : "release".data ≠ [] := by decide
  have h1 : pyJoin root "release".data = joinPre root ++ "release".data :=
    pyJoin_eq _ _ (by decide)
  have h1last : (joinPre root ++ "release".data).getLast? ≠ some '/' := by
    rw [List.getLast?_append_of_ne_nil _ hrelne]
    decide
  have h2 : pyJoin (joinPre root ++ "release".data) (rankDirChars r) =
      (joinPre root ++ "release".data) ++ '/' :: rankDirChars r :=
    pyJoin_mid _ _ (by simp [List.append_eq_nil, hrelne]) h1last
      (by rw [hrhead]; decide)
  have h3last : ((joinPre root ++ "release".data) ++
      '/' :: rankDirChars r).getLast? ≠ some '/' := by
    rw [List.getLast?_append_of_ne_nil _ (List.cons_ne_nil '/' (rankDirChars r)),
      show ('/' :: rankDirChars r) = ['/'] ++ rankDirChars r from rfl,
      List.getLast?_append_of_ne_nil _ hrne, rankDirChars,
      List.getLast?_append_of_ne_nil _ (pyFormat0_ne_nil 2 r)]
    intro hcon
    exact pyFormat0_ne_slash 2 r '/' (mem_of_getLast_some _ _ hcon) rfl
  have h3 : pyJoin ((joinPre root ++ "release".data) ++ '/' :: rankDirChars r)
      "model_optim_rng.pt".data =
      ((joinPre root ++ "release".data) ++ '/' :: rankDirChars r) ++
        '/' :: "model_optim_rng.pt".data :=
    pyJoin_mid _ _ (by simp) h3last (by rw [hfhead]; decide)
  show pyJoin (pyJoin (pyJoin root "release".data) (rankDirChars r))
      "model_optim_rng.pt".data = _
  rw [h1, h2, h3]
  simp [List.append_assoc]

/-- C3 amended: for a fixed root, distinct (iteration, rank) pairs with
the release flag unset map to distinct paths; with the release flag set
the path ignores the iteration entirely but distinct ranks still map to
distinct paths; a release path never equals a non-release path; and the
non-release path has the documented root, zero-padded iteration
directory, zero-padded rank directory and payload filename layout. -/
theorem get_checkpoint_name_paths :
    (∀ (root : List Char) (i i' r r' : Nat),
      get_checkpoint_name root i false r = get_checkpoint_name root i' false r' →
        i = i' ∧ r = r') ∧
    (∀ (root : List Char) (i i' r : Nat),
      get_checkpoint_name root i true r = get_checkpoint_name root i' true r) ∧
    (∀ (root : List Char) (i r i' r' : Nat),
      get_checkpoint_name root i true r ≠ get_checkpoint_name root i' false r') ∧
    (∀ (root : List Char) (i i' r r' : Nat),
      get_checkpoint_name root i true r = get_checkpoint_name root i' true r' →
        r = r') ∧
    (∀ (root : List Char) (i r : Nat),
      get_checkpoint_name root i false r =
        joinPre root ++ "iter_".data ++ pyFormat0 7 i ++
          '/' :: ("mp_rank_".data ++ pyFormat0 2 r ++
            '/' :: "model_optim_rng.pt".data)) := by
  refine ⟨?_, ?_, ?_, ?_, ?_⟩
  · intro root i i' r r' h
    rw [get_checkpoint_name_false_eq, get_checkpoint_name_false_eq] at h
    have h0 := List.append_cancel_left h
    rw [iterDirChars, iterDirChars, List.append_assoc, List.append_assoc] at h0
    have h1 := List.append_cancel_left h0
    obtain ⟨hpad, hX⟩ := splitAtSlash _ (pyFormat0_ne_slash 7 i) _
      (pyFormat0_ne_slash 7 i') _ _ h1
    refine ⟨pyFormat0_inj 7 i i' hpad, ?_⟩
    rw [rankDirChars, rankDirChars, List.append_assoc, List.append_assoc] at hX
    have h2 := List.append_cancel_left hX
    obtain ⟨hpad2, _⟩ := splitAtSlash _ (pyFormat0_ne_slash 2 r) _
      (pyFormat0_ne_slash 2 r') _ _ h2
    exact pyFormat0_inj 2 r r' hpad2
  · intro root i i' r
    rfl
  · intro root i r i' r' h
    rw [get_checkpoint_name_true_eq, get_checkpoint_name_false_eq] at h
    have h0 := List.append_cancel_left h
    have hh := congrArg List.head? h0
    rw [show ("release".data ++
        '/' :: (rankDirChars r ++ '/' :: "model_optim_rng.pt".data)).head? =
      some 'r' from rfl] at hh
    rw [show (iterDirChars i' ++
        '/' :: (rankDirChars r' ++ '/' :: "model_optim_rng.pt".data)).head? =
      some 'i' from rfl] at hh
    injection hh with hc
    exact absurd hc (by decide)
  · intro root i i' r r' h
    rw [get_checkpoint_name_true_eq, get_checkpoint_name_true_eq] at h
    have h0 := List.append_cancel_left h
    have h1 := List.append_cancel_left h0
    injection h1 with _ h2
    rw [rankDirChars, rankDirChars, List.append_assoc, List.append_assoc] at h2
    have h3 := List.append_cancel_left h2
    obtain ⟨hpad2, _⟩ := splitAtSlash _ (pyFormat0_ne_slash 2 r) _
      (pyFormat0_ne_slash 2 r') _ _ h3
    exact pyFormat0_inj 2 r r' hpad2
  · intro root i r
    rw [get_checkpoint_name_false_eq]
    simp [iterDirChars, rankDirChars, List.append_assoc]

/-- Counterexample for C3: with the release flag set the iteration is
ignored, so the two distinct triples with iterations 0 and 1 map to the
same path and the naming is not injective over (iteration, rank,
release) triples. -/
theorem get_checkpoint_name_paths_cex :
    get_checkpoint_name "ckpts".data 0 true 0 =
      get_checkpoint_name "ckpts".data 1 true 0 ∧
    ((0 : Nat), (0 : Nat), true) ≠ ((1 : Nat), (0 : Nat), true) :=
  ⟨rfl, by decide⟩

/-- Witness for C3 amended at concrete inputs. -/
theorem get_checkpoint_name_paths_witness :
    ((3 : Nat) = 3 ∧ (1 : Nat) = 1) ∧ (2 : Nat) = 2 :=
  ⟨get_checkpoint_name_paths.1 "ck".data 3 3 1 1 rfl,
   get_checkpoint_name_paths.2.2.2.1 "ck".data 5 5 2 2 rfl⟩
